import Mathlib

/-!
Shallow embedding of the Gmail AI Triage app (`src/app.js`) and verification of
the specification's claims about it.

Conventions used throughout:

* JavaScript strings are Lean `String`s (lists of unicode scalars); `trim` and
  `toLowerCase` are modelled on the ASCII range, which is what Lean's
  `Char.toLower` implements and what the relevant characters (`<`, `>`,
  whitespace, latin letters) live in.
* JSON values produced by `JSON.parse` are modelled by the inductive `Json`
  below (numbers as integers; no claim depends on numeric fine structure).
* Network calls are modelled by their outcomes: an `Except String α` stands for
  an awaited call that either resolved with `α` or threw.  In particular the
  result of `JSON.parse(content)` on the Groq message content is passed to
  `groqClassifyBatch` as an `Except String Json`, with `Except.error` standing
  for the `SyntaxError` that `JSON.parse` throws on malformed input (the source
  does not catch it).
-/

namespace GmailUnspamer

/-- JSON values, as produced by `JSON.parse`.  Object fields are kept in
source order; duplicate keys are resolved last-wins by `lookupField`,
matching `JSON.parse`. -/
inductive Json where
  | null
  | bool (b : Bool)
  | num (n : Int)
  | str (s : String)
  | arr (elems : List Json)
  | obj (fields : List (String × Json))

/-- Last-wins lookup of a key in a JS object's field list (property read on an
object built by `JSON.parse`, where a duplicated key keeps its last value). -/
def lookupField (fields : List (String × Json)) (k : String) : Option Json :=
  fields.foldl (fun acc f => if f.1 = k then some f.2 else acc) none

/-- Plain property read `v.k` on a parsed JSON value.  Reading a property of
`null` throws a `TypeError`; reading a property of any other non-object value
yields `undefined` (here `none`). -/
def jsGetProp : Json → String → Except String (Option Json)
  | Json.null, _ => Except.error "TypeError: cannot read properties of null"
  | Json.obj fields, k => Except.ok (lookupField fields k)
  | _, _ => Except.ok none

/-- Optional-chained property read `v?.k` where `v` itself may be `undefined`
(`none`).  `null` and `undefined` short-circuit to `undefined`; any other
non-object yields `undefined`; objects are looked up. -/
def jsOptProp (v : Option Json) (k : String) : Option Json :=
  match v with
  | some (Json.obj fields) => lookupField fields k
  | _ => none

/-- JS truthiness of a parsed JSON value. -/
def jsTruthy : Json → Bool
  | Json.null => false
  | Json.bool b => b
  | Json.num n => n != 0
  | Json.str s => s != ""
  | Json.arr _ => true
  | Json.obj _ => true

/-- Reads a JSON value as a string, defaulting to `""`.  This models
`(v || "")` applied to a decision field that is then used as a string
(`.toLowerCase()` on `action`, interpolation elsewhere): `undefined` and the
falsy values read as `""`.  A truthy non-string value would make the page
throw a `TypeError` at the `.toLowerCase()` call; the app's own pipeline and
its persisted snapshots only ever store strings (or nothing) in these fields,
which is the domain modelled here. -/
def jsStrOrEmpty : Option Json → String
  | some (Json.str s) => s
  | _ => ""

/-- JS `String.prototype.toLowerCase`, modelled on the basic latin range. -/
def jsToLowerList (l : List Char) : List Char := l.map Char.toLower

/-- Drops leading JS whitespace, one side of `String.prototype.trim`. -/
def trimLeft (l : List Char) : List Char := l.dropWhile Char.isWhitespace

/-- Drops trailing JS whitespace. -/
def trimRight (l : List Char) : List Char := (l.reverse.dropWhile Char.isWhitespace).reverse

/-- JS `String.prototype.trim` on the underlying character list. -/
def trimList (l : List Char) : List Char := trimRight (trimLeft l)

/-- JS `s.trim()` on strings. -/
def jsTrim (s : String) : String := ⟨trimList s.data⟩

/-- JS `s.toLowerCase()` on strings. -/
def jsToLower (s : String) : String := ⟨jsToLowerList s.data⟩

/-- First match of the regex `/<([^>]+)>/`: scanning left to right, the first
position holding `<` followed by at least one non-`>` character and then a
`>`; returns the captured group (the maximal run of non-`>` characters).
Models `fromHeader.match(/<([^>]+)>/)` in `normalizeSender`. -/
def scanBracket : List Char → Option (List Char)
  | [] => none
  | c :: rest =>
    if c = '<' then
      let content := rest.takeWhile (fun x => x != '>')
      if content.length ≠ 0 ∧ content.length < rest.length then some content
      else scanBracket rest
    else scanBracket rest

/-- `normalizeSender` from `src/app.js` (lines 46-50) on the underlying
character list: if the header contains an angle-bracketed address, return its
trimmed lowercase content; otherwise return the trimmed lowercase header, or
`"(unknown)"` if that is empty (the empty string is falsy under `||`). -/
def normalizeSenderList (l : List Char) : List Char :=
  match scanBracket l with
  | some content => jsToLowerList (trimList content)
  | none =>
    let t := jsToLowerList (trimList l)
    if t = [] then "(unknown)".data else t

/-- `normalizeSender` from `src/app.js` (lines 46-50). -/
def normalizeSender (fromHeader : String) : String :=
  ⟨normalizeSenderList fromHeader.data⟩

/-- Message metadata assembled by `getMessageMeta` (lines 142-157). -/
structure EmailMeta where
  id : String
  «from» : String
  «to» : String
  subject : String
  date : String
  snippet : String
  sender : String

/-- The raw Gmail message returned by a `format=metadata` fetch: the header
list and the snippet.  `bodyData` stands for the message body a full-format
fetch would additionally carry; `getMessageMeta` never reads it (the request
asks for metadata only), which the privacy theorem for C8 makes precise. -/
structure GmailMessage where
  headers : List (String × String)
  snippet : String := ""
  bodyData : String := ""

/-- `headerValue` (lines 136-140): first header whose name matches
case-insensitively, else `""`. -/
def headerValue (msg : GmailMessage) (name : String) : String :=
  match msg.headers.find? (fun x => jsToLower x.1 == jsToLower name) with
  | some h => h.2
  | none => ""

/-- Pure part of `getMessageMeta` (lines 142-157): assembles the metadata
record from the fetched message. -/
def getMessageMeta (id : String) (msg : GmailMessage) : EmailMeta :=
  let fromH := headerValue msg "From"
  { id := id
    «from» := fromH
    «to» := headerValue msg "To"
    subject := headerValue msg "Subject"
    date := headerValue msg "Date"
    snippet := msg.snippet
    sender := normalizeSender fromH }

/-- A labeled email: the metadata spread together with the attached
`decision` (a raw JSON value from the model, or the default object) and the
local `_trashed` flag (absent, i.e. `false`, until a trash call is made). -/
structure LabeledEmail extends EmailMeta where
  decision : Option Json := none
  trashed : Bool := false

/-- The per-email payload sent to Groq (lines 179-181): exactly the six
fields `id, from, to, subject, date, snippet`. -/
structure GroqPayloadItem where
  id : String
  «from» : String
  «to» : String
  subject : String
  date : String
  snippet : String

/-- Builds one email's payload for the Groq request (line 180). -/
def payloadItem (e : EmailMeta) : GroqPayloadItem :=
  { id := e.id, «from» := e.«from», «to» := e.«to», subject := e.subject,
    date := e.date, snippet := e.snippet }

/-- The default decision attached when the model's response holds no decision
for an email's id (line 205). -/
def defaultDecision (id : String) : Json :=
  Json.obj [("id", Json.str id), ("action", Json.str "review"),
            ("category", Json.str "other"), ("summary", Json.str ""),
            ("reason", Json.str "No decision.")]

/-- `Array.isArray(parsed.decisions) ? parsed.decisions : []` (line 202),
including the `TypeError` a property read on a parsed `null` raises. -/
def decisionsList (parsed : Json) : Except String (List Json) := do
  let dprop ← jsGetProp parsed "decisions"
  pure (match dprop with
        | some (Json.arr ds) => ds
        | _ => [])

/-- `decisions.map(d => [d.id, d])` (line 203): the entry list from which the
`Map` is built, evaluated left to right.  Reading `.id` of a `null` element
raises. -/
def byIdPairs : List Json → Except String (List (Option Json × Json))
  | [] => Except.ok []
  | d :: ds => do
    let k ← jsGetProp d "id"
    let rest ← byIdPairs ds
    pure ((k, d) :: rest)

/-- `new Map(entries).get(id)` for a string key `id`: the value of the last
entry whose key is the same string (Map insertion overwrites equal keys;
non-string keys never match a string lookup under SameValueZero). -/
def mapGet (pairs : List (Option Json × Json)) (id : String) : Option Json :=
  pairs.foldl (fun acc p =>
    match p.1 with
    | some (Json.str s) => if s = id then some p.2 else acc
    | _ => acc) none

/-- Decode-and-merge stage of `groqClassifyBatch` (lines 199-205).
`parsedContent` is the outcome of `JSON.parse(content)` on the first choice's
message content (with the `|| "{}"` default applied upstream when the content
is absent): `Except.error` stands for the `SyntaxError` thrown on malformed
JSON, which the source does not catch.  On success every input email is
returned, in order, with the matching decision or the default attached. -/
def groqClassifyBatch (parsedContent : Except String Json) (emails : List EmailMeta) :
    Except String (List LabeledEmail) := do
  let parsed ← parsedContent
  let decisions ← decisionsList parsed
  let pairs ← byIdPairs decisions
  pure (emails.map (fun e =>
    let dec := match mapGet pairs e.id with
      | some v => if jsTruthy v then v else defaultDecision e.id
      | none => defaultDecision e.id
    { toEmailMeta := e, decision := some dec, trashed := false }))

/-- The grouping key `e.sender || "(unknown)"` (line 228). -/
def groupKey (e : LabeledEmail) : String :=
  if e.sender = "" then "(unknown)" else e.sender

/-- One sender group of the snapshot (lines 229-230). -/
structure SenderGroup where
  sender : String
  fromHeaderSample : String
  emails : List LabeledEmail

/-- Adds one labeled email to the grouped collection (lines 227-231): appended
to the existing group with its key, or opening a new group (insertion order,
sample taken from the first email). -/
def insertEmail (gs : List SenderGroup) (e : LabeledEmail) : List SenderGroup :=
  match gs with
  | [] => [{ sender := groupKey e, fromHeaderSample := e.«from», emails := [e] }]
  | g :: rest =>
    if g.sender = groupKey e then
      { g with emails := g.emails ++ [e] } :: rest
    else
      g :: insertEmail rest e

/-- The grouping loop of `scan` (lines 226-231). -/
def groupBySender (l : List LabeledEmail) : List SenderGroup :=
  l.foldl insertEmail []

/-- The persisted `ScanSnapshot` (lines 233-238). -/
structure ScanSnapshot where
  generatedAt : String
  query : String
  total : Nat
  grouped : List SenderGroup

/-- `(e.decision?.action || "").toLowerCase()` (lines 265-266, 299, 315). -/
def actionKey (e : LabeledEmail) : String :=
  jsToLower (jsStrOrEmpty (jsOptProp e.decision "action"))

/-- Per-group keep count (line 265). -/
def keepCount (emails : List LabeledEmail) : Nat :=
  (emails.filter (fun e => actionKey e == "keep")).length

/-- Per-group trash count (line 266). -/
def trashCount (emails : List LabeledEmail) : Nat :=
  (emails.filter (fun e => actionKey e == "trash")).length

/-- Per-group review count (line 267): everything not counted keep or trash. -/
def reviewCount (emails : List LabeledEmail) : Nat :=
  emails.length - keepCount emails - trashCount emails

/-- The render-order comparison (line 256): group `a` before `b` when `b`'s
email count does not exceed `a`'s (the comparator `(a,b) => len(b) - len(a)`
sorts descending by count). -/
def byCountDesc (a b : SenderGroup) : Bool :=
  b.emails.length ≤ a.emails.length

/-- The sender groups in render order (line 256): stably sorted descending by
email count. -/
def sortedGroups (grouped : List SenderGroup) : List SenderGroup :=
  grouped.mergeSort byCountDesc

/-- Summary total of keep decisions over the rendered groups (lines 259, 269). -/
def totalKeep (grouped : List SenderGroup) : Nat :=
  ((sortedGroups grouped).map (fun g => keepCount g.emails)).sum

/-- Summary total of trash decisions over the rendered groups. -/
def totalTrash (grouped : List SenderGroup) : Nat :=
  ((sortedGroups grouped).map (fun g => trashCount g.emails)).sum

/-- Summary total of review decisions over the rendered groups. -/
def totalReview (grouped : List SenderGroup) : Nat :=
  ((sortedGroups grouped).map (fun g => reviewCount g.emails)).sum

/-- The ids selected by the bulk "Trash suggested" action (line 299): emails
whose decision action reads `trash` and that are not yet locally trashed. -/
def trashSelection (emails : List LabeledEmail) : List String :=
  (emails.filter (fun e => actionKey e == "trash" && !e.trashed)).map (fun e => e.id)

/-- The bulk "Trash suggested" handler on one group's email list
(lines 298-312).  `trashOk id` tells whether the `trashMessage(id)` call
succeeded (failures are caught and only logged).  Returns the updated email
list, the success count `ok`, and the attempted count `ids.length`.  Note
line 308 marks every email whose id was attempted, not only the successes. -/
def bulkTrash (trashOk : String → Bool) (emails : List LabeledEmail) :
    List LabeledEmail × Nat × Nat :=
  let ids := trashSelection emails
  let ok := (ids.filter trashOk).length
  (emails.map (fun e => if ids.contains e.id then { e with trashed := true } else e),
   ok, ids.length)

/-- The bulk handler at snapshot level: the handler closes over the rendered
group with the clicked sender; its email objects are mutated in place and the
whole state is re-persisted (lines 308-309).  Mutation through shared object
references is modelled by rewriting the email list of every group carrying
that sender key (scan-produced snapshots have unique sender keys). -/
def trashSuggested (trashOk : String → Bool) (st : ScanSnapshot) (target : String) :
    ScanSnapshot × Nat × Nat :=
  match st.grouped.find? (fun g => g.sender == target) with
  | none => (st, 0, 0)
  | some g =>
    let r := bulkTrash trashOk g.emails
    ({ st with grouped :=
        st.grouped.map (fun h => if h.sender == target then { h with emails := r.1 } else h) },
     r.2.1, r.2.2)

/-- Marks the email with the given id trashed throughout the snapshot,
modelling the in-place `e._trashed = true` mutation (line 348) as observed
through the persisted state (ids are unique within a snapshot). -/
def markTrashed (grouped : List SenderGroup) (id : String) : List SenderGroup :=
  grouped.map (fun g =>
    { g with emails := g.emails.map (fun e =>
        if e.id = id then { e with trashed := true } else e) })

/-- The per-email manual "Trash" handler (lines 344-352) after confirmation:
one `trashMessage` call; on success the email is marked trashed, the snapshot
re-persisted; on failure the `await` rethrows and nothing after it runs.
Returns (propagated error if any, the in-memory state, the durable store). -/
def manualTrashStep (trashResult : Except String Unit) (st : ScanSnapshot) (id : String)
    (store : Option ScanSnapshot) : Option String × ScanSnapshot × Option ScanSnapshot :=
  match trashResult with
  | Except.error err => (some err, st, store)
  | Except.ok _ =>
    let st' : ScanSnapshot := { st with grouped := markTrashed st.grouped id }
    (none, st', some st')

/-- User settings (lines 25-32, 63-75); only the fields the pipeline reads. -/
structure Settings where
  groqKey : String := ""
  groqModel : String := "llama-3.1-8b-instant"
  batchSize : Nat := 10
  maxMessages : Nat := 50
  query : String := "from:notifications@github.com OR category:promotions OR category:social"

/-- `Math.max(1, settings.batchSize || 10)` (line 218): `0` is falsy. -/
def effBatchSize (s : Settings) : Nat :=
  max 1 (if s.batchSize = 0 then 10 else s.batchSize)

/-- Consecutive slices of size `bs` (the batching loop of lines 220-224,
where `bs ≥ 1` is guaranteed by `effBatchSize`). -/
def chunks (bs : Nat) : List α → List (List α)
  | [] => []
  | a :: l => (a :: l.take (bs - 1)) :: chunks bs (l.drop (bs - 1))
  termination_by l => l.length
  decreasing_by simp [List.length_drop]; omega

/-- Observable effects of one scan, in issue order. -/
inductive Eff where
  | list
  | fetch (id : String)
  | classifyCall (ids : List String)
  | persist
deriving DecidableEq

/-- Outcomes of the external calls a scan makes: the id listing, the
per-message metadata fetch, and — per classification batch — the HTTP call
composed with `JSON.parse` on the returned content (outer error: auth/HTTP
failure of `groqClassifyBatch`; inner: the parse outcome handed to the decode
stage). -/
structure ScanEnv where
  listResult : Except String (List String)
  fetchMeta : String → Except String GmailMessage
  classifyContent : List EmailMeta → Except String (Except String Json)

/-- The sequential metadata loop (line 216): stops at the first failure. -/
def fetchMetas (env : ScanEnv) : List String → Except String (List EmailMeta) × List Eff
  | [] => (Except.ok [], [])
  | id :: ids =>
    match env.fetchMeta id with
    | Except.error e => (Except.error e, [Eff.fetch id])
    | Except.ok msg =>
      let r := fetchMetas env ids
      (r.1.map (fun rest => getMessageMeta id msg :: rest), Eff.fetch id :: r.2)

/-- The sequential classification loop (lines 220-224): each batch goes
through the Groq call and the decode stage; the first failure aborts. -/
def classifyBatches (env : ScanEnv) :
    List (List EmailMeta) → Except String (List LabeledEmail) × List Eff
  | [] => (Except.ok [], [])
  | b :: bs =>
    let step : Except String (List LabeledEmail) := do
      let c ← env.classifyContent b
      groqClassifyBatch c b
    match step with
    | Except.error e => (Except.error e, [Eff.classifyCall (b.map (fun m => m.id))])
    | Except.ok out =>
      let r := classifyBatches env bs
      (r.1.map (fun rest => out ++ rest), Eff.classifyCall (b.map (fun m => m.id)) :: r.2)

/-- The scan pipeline (lines 208-243): list, fetch metadata sequentially,
classify in batches, group, then persist the fresh snapshot.  Returns the
outcome, the durable last-scan document after the run (`store` is its prior
content), and the effect log. -/
def scan (env : ScanEnv) (settings : Settings) (now : String) (store : Option ScanSnapshot) :
    Except String ScanSnapshot × Option ScanSnapshot × List Eff :=
  match env.listResult with
  | Except.error e => (Except.error e, store, [Eff.list])
  | Except.ok ids =>
    match fetchMetas env ids with
    | (Except.error e, flog) => (Except.error e, store, Eff.list :: flog)
    | (Except.ok metas, flog) =>
      match classifyBatches env (chunks (effBatchSize settings) metas) with
      | (Except.error e, clog) => (Except.error e, store, Eff.list :: flog ++ clog)
      | (Except.ok labeled, clog) =>
        let snap : ScanSnapshot :=
          { generatedAt := now, query := settings.query, total := labeled.length,
            grouped := groupBySender labeled }
        (Except.ok snap, some snap, Eff.list :: flog ++ clog ++ [Eff.persist])

/-- Spec-side accessor: the `decisions` array a parsed response content
carries, empty when absent or not an array (or when the read would throw). -/
def decisionsArrOf (j : Json) : List Json :=
  match jsGetProp j "decisions" with
  | Except.ok (some (Json.arr ds)) => ds
  | _ => []

/-- Spec-side accessor: the `id` key a decision element contributes to the
lookup map (`none` when absent, unreadable, or `undefined`). -/
def keyOf (d : Json) : Option Json :=
  match jsGetProp d "id" with
  | Except.ok k => k
  | Except.error _ => none

/-! Concrete inputs used by the witness and counterexample theorems. -/

/-- Sample metadata record with a given id. -/
def mkMeta (i : String) : EmailMeta :=
  { id := i, «from» := "Newsletter <news@shop.example>", «to» := "me@example.com",
    subject := "sale", date := "Mon, 6 Oct 2025 10:00:00 +0000",
    snippet := "big sale now", sender := "news@shop.example" }

/-- Sample labeled email with a given id and decision action. -/
def mkLab (i act : String) : LabeledEmail :=
  { toEmailMeta := mkMeta i,
    decision := some (Json.obj [("id", Json.str i), ("action", Json.str act)]),
    trashed := false }

/-- The bulk-trash scenario group: five emails, three suggested for trash. -/
def es5 : List LabeledEmail :=
  [mkLab "m1" "trash", mkLab "m2" "trash", mkLab "m3" "trash",
   mkLab "m4" "keep", mkLab "m5" "review"]

/-- Trash-call outcomes for the scenario: only the call for `m1` succeeds. -/
def f5 : String → Bool := fun id => id == "m1"

/-- The scenario group as a sender group. -/
def gr5 : SenderGroup :=
  { sender := "news@shop.example",
    fromHeaderSample := "Newsletter <news@shop.example>", emails := es5 }

/-- Snapshot holding the scenario group. -/
def st5 : ScanSnapshot :=
  { generatedAt := "2025-10-06T10:00:00Z", query := "category:promotions", total := 5,
    grouped := [gr5] }

/-- A response content carrying a `decisions` value that is not an array. -/
def jNoArr : Json := Json.obj [("decisions", Json.str "nope")]

/-- A scan environment whose Gmail listing call fails. -/
def envFail : ScanEnv :=
  { listResult := Except.error "Gmail API error 401: unauthorized"
    fetchMeta := fun _ => Except.error "Gmail API error 401: unauthorized"
    classifyContent := fun _ => Except.error "Groq API error 401: unauthorized" }

/-- A pre-existing snapshot sitting in the durable store. -/
def snapPrev : ScanSnapshot :=
  { generatedAt := "2025-10-05T09:00:00Z", query := "category:social", total := 0, grouped := [] }

/-- The labeled emails `groqClassifyBatch` produces for a batch on the
default path. -/
def classifyDefaultOut (emails : List EmailMeta) : List LabeledEmail :=
  emails.map (fun e =>
    { toEmailMeta := e, decision := some (defaultDecision e.id), trashed := false })

/-- All emails of a grouped collection, group order then in-group order. -/
def allEmails (gs : List SenderGroup) : List LabeledEmail :=
  (gs.map (fun g => g.emails)).flatten

/-- The sender keys of a grouped collection, in insertion order. -/
def senderKeys (gs : List SenderGroup) : List String :=
  gs.map (fun g => g.sender)

/-! Reduction helpers for the `Except` monad. -/

/-- Bind on a resolved value steps to the continuation. -/
theorem bindOkEq {ε α β : Type} (a : α) (f : α → Except ε β) :
    (Except.ok a >>= f) = f a := rfl

/-- Bind on a thrown error short-circuits. -/
theorem bindErrEq {ε α β : Type} (e : ε) (f : α → Except ε β) :
    ((Except.error e : Except ε α) >>= f) = Except.error e := rfl

/-- Map on a resolved value applies the function. -/
theorem mapOkEq {ε α β : Type} (f : α → β) (a : α) :
    (f <$> (Except.ok a : Except ε α)) = Except.ok (f a) := rfl

/-- Map on a thrown error short-circuits. -/
theorem mapErrEq {ε α β : Type} (f : α → β) (e : ε) :
    (f <$> (Except.error e : Except ε α)) = Except.error e := rfl

/-- Pure is `ok`. -/
theorem pureOkEq {ε α : Type} (a : α) : (pure a : Except ε α) = Except.ok a := rfl

/-! Supporting lemmas about the classification decode stage. -/

/-- Successful extraction of the decisions list agrees with the spec-side
accessor. -/
theorem decisionsList_ok {j : Json} {ds : List Json}
    (h : decisionsList j = Except.ok ds) : ds = decisionsArrOf j := by
  cases j with
  | null => simp [decisionsList, jsGetProp, bindErrEq] at h
  | obj fields =>
    simp only [decisionsList, jsGetProp, bindOkEq, pureOkEq, Except.ok.injEq] at h
    rcases hl : lookupField fields "decisions" with _ | v
    · rw [hl] at h
      simp only [] at h
      simp [decisionsArrOf, jsGetProp, hl, ← h]
    · rw [hl] at h
      cases v <;> simp only [] at h <;> simp [decisionsArrOf, jsGetProp, hl, ← h]
  | bool b =>
    simp only [decisionsList, jsGetProp, bindOkEq, pureOkEq, Except.ok.injEq] at h
    simp [decisionsArrOf, jsGetProp, ← h]
  | num n =>
    simp only [decisionsList, jsGetProp, bindOkEq, pureOkEq, Except.ok.injEq] at h
    simp [decisionsArrOf, jsGetProp, ← h]
  | str s =>
    simp only [decisionsList, jsGetProp, bindOkEq, pureOkEq, Except.ok.injEq] at h
    simp [decisionsArrOf, jsGetProp, ← h]
  | arr xs =>
    simp only [decisionsList, jsGetProp, bindOkEq, pureOkEq, Except.ok.injEq] at h
    simp [decisionsArrOf, jsGetProp, ← h]

/-- Successful map-entry construction records exactly the decisions' keys. -/
theorem byIdPairs_keys :
    ∀ {ds : List Json} {pairs : List (Option Json × Json)},
      byIdPairs ds = Except.ok pairs → pairs.map (fun p => p.1) = ds.map keyOf := by
  intro ds
  induction ds with
  | nil => intro pairs h; cases h; rfl
  | cons d ds ih =>
    intro pairs h
    simp only [byIdPairs] at h
    rcases hk : jsGetProp d "id" with k | k
    · rw [hk] at h
      simp [bindErrEq] at h
    · rw [hk] at h
      simp only [bindOkEq] at h
      rcases hr : byIdPairs ds with r | r
      · rw [hr] at h
        simp [bindErrEq, mapErrEq] at h
      · rw [hr] at h
        simp only [bindOkEq, mapOkEq, pureOkEq, Except.ok.injEq] at h
        subst h
        simp [keyOf, hk, ih hr]

/-- A string key absent from the entry keys is not found by `Map.get`. -/
theorem mapGet_eq_of_no_match :
    ∀ (pairs : List (Option Json × Json)) (id : String) (acc : Option Json),
      some (Json.str id) ∉ pairs.map (fun p => p.1) →
      pairs.foldl (fun acc p =>
        match p.1 with
        | some (Json.str s) => if s = id then some p.2 else acc
        | _ => acc) acc = acc := by
  intro pairs
  induction pairs with
  | nil => intro id acc _; rfl
  | cons p pairs ih =>
    intro id acc hmem
    simp only [List.map_cons, List.mem_cons] at hmem
    push_neg at hmem
    obtain ⟨hp, hrest⟩ := hmem
    simp only [List.foldl_cons]
    have hstep : (match p.1 with
        | some (Json.str s) => if s = id then some p.2 else acc
        | _ => acc) = acc := by
      rcases p with ⟨k, v⟩
      rcases k with _ | jk
      · rfl
      · cases jk with
        | str s =>
          simp only
          rw [if_neg]
          intro hs
          exact hp (by simp [hs])
        | null => rfl
        | bool b => rfl
        | num n => rfl
        | arr xs => rfl
        | obj fs => rfl
    rw [hstep]
    exact ih id acc (by simpa using hrest)

/-- No matching entry means the default decision is attached. -/
theorem mapGet_none {pairs : List (Option Json × Json)} {id : String}
    (h : some (Json.str id) ∉ pairs.map (fun p => p.1)) : mapGet pairs id = none :=
  mapGet_eq_of_no_match pairs id none h

/-- Inversion of a successful `groqClassifyBatch` run: the decode stages all
succeeded and the output is the input batch with decisions attached. -/
theorem groqClassifyBatch_ok {j : Json} {emails : List EmailMeta} {out : List LabeledEmail}
    (h : groqClassifyBatch (Except.ok j) emails = Except.ok out) :
    ∃ pairs, byIdPairs (decisionsArrOf j) = Except.ok pairs ∧
      out = emails.map (fun e =>
        { toEmailMeta := e,
          decision := some (match mapGet pairs e.id with
            | some v => if jsTruthy v then v else defaultDecision e.id
            | none => defaultDecision e.id),
          trashed := false }) := by
  simp only [groqClassifyBatch, bindOkEq] at h
  rcases hd : decisionsList j with ds | ds
  · rw [hd] at h
    simp [bindErrEq, mapErrEq] at h
  · rw [hd] at h
    simp only [bindOkEq] at h
    rcases hp : byIdPairs ds with pairs | pairs
    · rw [hp] at h
      simp [bindErrEq, mapErrEq] at h
    · rw [hp] at h
      simp only [bindOkEq, mapOkEq, pureOkEq, Except.ok.injEq] at h
      refine ⟨pairs, ?_, h.symm⟩
      rw [← decisionsList_ok hd]
      exact hp

/-! C2: behaviour of `groqClassifyBatch` on contents without a usable
`decisions` array. -/

/-- C2 (counterexample): the claim says malformed JSON message content does
not raise.  It does: `JSON.parse` throws and `groqClassifyBatch` propagates
the `SyntaxError` instead of attaching default decisions. -/
theorem classify_malformed_raises :
    groqClassifyBatch (Except.error "SyntaxError: Unexpected token") [mkMeta "m1"]
      = Except.error "SyntaxError: Unexpected token"
    ∧ (groqClassifyBatch (Except.error "SyntaxError: Unexpected token") [mkMeta "m1"]).isOk
      = false :=
  ⟨rfl, rfl⟩

/-- C2 (amended): when the message content parses to a JSON value other than
`null` whose `decisions` is absent or not an array, the decode degrades: every
input email is returned with the default review decision attached. -/
theorem classify_defaults_when_no_decisions
    (j : Json) (emails : List EmailMeta) (hnull : j ≠ Json.null)
    (hempty : decisionsArrOf j = []) :
    groqClassifyBatch (Except.ok j) emails = Except.ok (classifyDefaultOut emails) := by
  have hds : decisionsList j = Except.ok [] := by
    cases j with
    | null => exact absurd rfl hnull
    | obj fields =>
      simp only [decisionsList, jsGetProp, bindOkEq, pureOkEq, Except.ok.injEq]
      rcases hl : lookupField fields "decisions" with _ | v
      · rfl
      · cases v with
        | arr ds =>
          simp only [decisionsArrOf, jsGetProp, hl] at hempty
          simp [hempty]
        | null => rfl
        | bool b => rfl
        | num n => rfl
        | str s => rfl
        | obj fs => rfl
    | bool b => rfl
    | num n => rfl
    | str s => rfl
    | arr xs => rfl
  simp only [groqClassifyBatch, bindOkEq, hds, byIdPairs, pureOkEq, mapOkEq, Except.ok.injEq]
  rfl

/-- C2 (witness): a content whose `decisions` is a string degrades to the
default decision for the whole batch. -/
theorem classify_defaults_when_no_decisions_witness :
    jNoArr ≠ Json.null ∧ decisionsArrOf jNoArr = [] ∧
      groqClassifyBatch (Except.ok jNoArr) [mkMeta "m1"]
        = Except.ok (classifyDefaultOut [mkMeta "m1"]) :=
  ⟨fun h => Json.noConfusion h, rfl,
   classify_defaults_when_no_decisions jNoArr [mkMeta "m1"] (fun h => Json.noConfusion h) rfl⟩

/-! C3: decision attached to emails absent from the response. -/

/-- C3 (counterexample): the default decision's `reason` is the literal
`"No decision."`, not the claimed `"no decision"` (and the default also
carries an `id` field). -/
theorem default_reason_literal :
    groqClassifyBatch (Except.ok (Json.obj [])) [mkMeta "m1"]
      = Except.ok [{ toEmailMeta := mkMeta "m1",
                     decision := some (defaultDecision "m1"), trashed := false }]
    ∧ jsStrOrEmpty (jsOptProp (some (defaultDecision "m1")) "reason") = "No decision."
    ∧ jsStrOrEmpty (jsOptProp (some (defaultDecision "m1")) "id") = "m1"
    ∧ ("No decision." : String) ≠ "no decision" :=
  ⟨rfl, rfl, rfl, by decide⟩

/-- C3 (amended): an input email whose id is carried by no decision of the
response gets exactly the default decision object
`{id, action: "review", category: "other", summary: "", reason: "No decision."}`
attached. -/
theorem classify_absent_id_gets_default
    (j : Json) (emails : List EmailMeta) (out : List LabeledEmail)
    (h : groqClassifyBatch (Except.ok j) emails = Except.ok out)
    (e : EmailMeta) (he : e ∈ emails)
    (habs : some (Json.str e.id) ∉ (decisionsArrOf j).map keyOf) :
    ({ toEmailMeta := e, decision := some (defaultDecision e.id), trashed := false }
      : LabeledEmail) ∈ out := by
  obtain ⟨pairs, hp, hout⟩ := groqClassifyBatch_ok h
  have hkeys := byIdPairs_keys hp
  have hnone : mapGet pairs e.id = none := by
    apply mapGet_none
    rw [hkeys]
    exact habs
  subst hout
  have := List.mem_map_of_mem (f := fun e =>
    ({ toEmailMeta := e,
       decision := some (match mapGet pairs e.id with
         | some v => if jsTruthy v then v else defaultDecision e.id
         | none => defaultDecision e.id),
       trashed := false } : LabeledEmail)) he
  simpa [hnone] using this

/-- C3 (witness): with an empty response object, `m1` is absent and receives
the default decision. -/
theorem classify_absent_id_gets_default_witness :
    groqClassifyBatch (Except.ok (Json.obj [])) [mkMeta "m1"]
      = Except.ok (classifyDefaultOut [mkMeta "m1"])
    ∧ (mkMeta "m1") ∈ [mkMeta "m1"]
    ∧ some (Json.str (mkMeta "m1").id) ∉ (decisionsArrOf (Json.obj [])).map keyOf
    ∧ ({ toEmailMeta := mkMeta "m1", decision := some (defaultDecision (mkMeta "m1").id),
         trashed := false } : LabeledEmail) ∈ classifyDefaultOut [mkMeta "m1"] :=
  ⟨rfl, List.mem_singleton.mpr rfl, by simp [decisionsArrOf, jsGetProp, lookupField],
   classify_absent_id_gets_default (Json.obj []) [mkMeta "m1"]
     (classifyDefaultOut [mkMeta "m1"]) rfl (mkMeta "m1") (List.mem_singleton.mpr rfl)
     (by simp [decisionsArrOf, jsGetProp, lookupField])⟩

/-! C4: the returned sequence mirrors the input batch. -/

/-- C4: whenever `groqClassifyBatch` returns a sequence, it has the same
length as the input batch and the same ids in the same order, regardless of
the response's decisions (order, extras, or unmatched ids). -/
theorem classify_preserves_batch_order
    (parsedContent : Except String Json) (emails : List EmailMeta) (out : List LabeledEmail)
    (h : groqClassifyBatch parsedContent emails = Except.ok out) :
    out.map (fun e => e.id) = emails.map (fun e => e.id) ∧ out.length = emails.length := by
  rcases parsedContent with msg | j
  · simp [groqClassifyBatch, bindErrEq] at h
  · obtain ⟨pairs, _, hout⟩ := groqClassifyBatch_ok h
    subst hout
    constructor
    · rw [List.map_map]
      exact List.map_congr_left (fun e _ => rfl)
    · simp

/-- C4 (witness): a response listing only `m2`, out of order, still yields
the batch's ids in the batch's order. -/
theorem classify_preserves_batch_order_witness :
    groqClassifyBatch
        (Except.ok (Json.obj [("decisions",
          Json.arr [Json.obj [("id", Json.str "m2"), ("action", Json.str "trash")],
                    Json.obj [("id", Json.str "zz"), ("action", Json.str "keep")]])]))
        [mkMeta "m1", mkMeta "m2"]
      = Except.ok
          [{ toEmailMeta := mkMeta "m1", decision := some (defaultDecision "m1"),
             trashed := false },
           { toEmailMeta := mkMeta "m2",
             decision := some (Json.obj [("id", Json.str "m2"),
                                         ("action", Json.str "trash")]),
             trashed := false }]
    ∧ [mkMeta "m1", mkMeta "m2"].map (fun e => e.id) = ["m1", "m2"] := by
  refine ⟨rfl, ?_⟩
  have h := classify_preserves_batch_order
    (Except.ok (Json.obj [("decisions",
      Json.arr [Json.obj [("id", Json.str "m2"), ("action", Json.str "trash")],
                Json.obj [("id", Json.str "zz"), ("action", Json.str "keep")]])]))
    [mkMeta "m1", mkMeta "m2"]
    [{ toEmailMeta := mkMeta "m1", decision := some (defaultDecision "m1"), trashed := false },
     { toEmailMeta := mkMeta "m2",
       decision := some (Json.obj [("id", Json.str "m2"), ("action", Json.str "trash")]),
       trashed := false }]
    rfl
  rw [← h.1]
  rfl

/-! C8: the privacy boundary of the classification payload. -/

/-- C8: the per-email payload sent to Groq is exactly determined by the six
fields `id, from, to, subject, date, snippet` (two emails agreeing on them
produce identical payloads whatever `sender` holds), and the metadata record
is built without ever reading a message body. -/
theorem payload_privacy_boundary :
    (∀ e1 e2 : EmailMeta,
      e1.id = e2.id → e1.«from» = e2.«from» → e1.«to» = e2.«to» →
      e1.subject = e2.subject → e1.date = e2.date → e1.snippet = e2.snippet →
      payloadItem e1 = payloadItem e2)
    ∧ ∀ (id : String) (msg : GmailMessage) (b : String),
        getMessageMeta id { msg with bodyData := b } = getMessageMeta id msg := by
  constructor
  · intro e1 e2 h1 h2 h3 h4 h5 h6
    simp [payloadItem, h1, h2, h3, h4, h5, h6]
  · intro id msg b
    rfl

/-- C8 (witness): two metadata records sharing the six sent fields but with
different derived senders produce the same payload; a body value does not
influence the metadata record. -/
theorem payload_privacy_boundary_witness :
    ((mkMeta "m1").id = ({ mkMeta "m1" with sender := "other@x.y" } : EmailMeta).id)
    ∧ payloadItem (mkMeta "m1") = payloadItem { mkMeta "m1" with sender := "other@x.y" }
    ∧ getMessageMeta "m1" { headers := [("From", "A <a@b.c>")], snippet := "s",
                            bodyData := "SECRET BODY" }
        = getMessageMeta "m1" { headers := [("From", "A <a@b.c>")], snippet := "s" } :=
  ⟨rfl,
   payload_privacy_boundary.1 (mkMeta "m1") { mkMeta "m1" with sender := "other@x.y" }
     rfl rfl rfl rfl rfl rfl,
   payload_privacy_boundary.2 "m1" { headers := [("From", "A <a@b.c>")], snippet := "s" }
     "SECRET BODY"⟩

/-! C9: the per-email manual "Trash" handler on failure. -/

/-- C9: when the single `trashMessage` call of the manual "Trash" handler
fails, the handler rethrows: the error propagates, the in-memory state (and
with it every local `_trashed` flag) is untouched, and the durable snapshot
is not re-persisted. -/
theorem manual_trash_failure_propagates
    (err : String) (st : ScanSnapshot) (id : String) (store : Option ScanSnapshot) :
    manualTrashStep (Except.error err) st id store = (some err, st, store) :=
  rfl

/-! C6: a failing scan leaves the durable last-scan document untouched. -/

/-- The metadata loop never logs a persist effect. -/
theorem persist_not_in_fetch_log (env : ScanEnv) :
    ∀ ids : List String, Eff.persist ∉ (fetchMetas env ids).2 := by
  intro ids
  induction ids with
  | nil => simp [fetchMetas]
  | cons id ids ih =>
    simp only [fetchMetas]
    rcases env.fetchMeta id with e | msg
    · simp
    · simp only [List.mem_cons]
      rintro (h | h)
      · exact Eff.noConfusion h
      · exact ih h

/-- The classification loop never logs a persist effect. -/
theorem persist_not_in_classify_log (env : ScanEnv) :
    ∀ bs : List (List EmailMeta), Eff.persist ∉ (classifyBatches env bs).2 := by
  intro bs
  induction bs with
  | nil => simp [classifyBatches]
  | cons b bs ih =>
    simp only [classifyBatches]
    rcases (env.classifyContent b >>= fun c => groqClassifyBatch c b) with e | out
    · simp
    · simp only [List.mem_cons]
      rintro (h | h)
      · exact Eff.noConfusion h
      · exact ih h

/-- C6: if any step of the scan pipeline fails, the pipeline aborts with that
error, the durable last-scan document still holds exactly its prior content,
and no persist effect was issued; moreover when already the listing fails,
nothing beyond the listing call happened at all. -/
theorem scan_failure_preserves_snapshot
    (env : ScanEnv) (settings : Settings) (now : String) (store : Option ScanSnapshot)
    (e : String) (st' : Option ScanSnapshot) (log : List Eff)
    (h : scan env settings now store = (Except.error e, st', log)) :
    st' = store ∧ Eff.persist ∉ log ∧
      (env.listResult = Except.error e → log = [Eff.list]) := by
  unfold scan at h
  rcases hl : env.listResult with msg | ids
  · rw [hl] at h
    simp only [Prod.mk.injEq] at h
    obtain ⟨he, hst, hlog⟩ := h
    subst hst
    subst hlog
    refine ⟨rfl, by simp, fun _ => rfl⟩
  · rw [hl] at h
    simp only [] at h
    rcases hf : fetchMetas env ids with ⟨fr, flog⟩
    rw [hf] at h
    have hpf : Eff.persist ∉ flog := by
      have := persist_not_in_fetch_log env ids
      rw [hf] at this
      exact this
    rcases fr with fe | metas
    · simp only [Prod.mk.injEq] at h
      obtain ⟨he, hst, hlog⟩ := h
      subst hst
      subst hlog
      refine ⟨rfl, ?_, ?_⟩
      · simp only [List.mem_cons]
        rintro (hc | hc)
        · exact Eff.noConfusion hc
        · exact hpf hc
      · intro hres
        exact Except.noConfusion hres
    · simp only [] at h
      rcases hc : classifyBatches env (chunks (effBatchSize settings) metas) with ⟨cr, clog⟩
      rw [hc] at h
      have hpc : Eff.persist ∉ clog := by
        have := persist_not_in_classify_log env (chunks (effBatchSize settings) metas)
        rw [hc] at this
        exact this
      rcases cr with ce | labeled
      · simp only [Prod.mk.injEq] at h
        obtain ⟨he, hst, hlog⟩ := h
        subst hst
        subst hlog
        refine ⟨rfl, ?_, ?_⟩
        · intro hx
          rcases List.mem_cons.mp hx with hx | hx
          · exact Eff.noConfusion hx
          rcases List.mem_append.mp hx with hx | hx
          · exact hpf hx
          · exact hpc hx
        · intro hres
          exact Except.noConfusion hres
      · simp only [Prod.mk.injEq] at h
        exact absurd h.1 (by simp)

/-! C1: the bulk "Trash suggested" action. -/

/-- C1 (counterexample): in the spec's scenario — five emails, three
suggested for trash, two of the three trash calls failing — the handler marks
all three attempted emails trashed (line 308 marks every attempted id, not
only successes), not exactly the one whose call succeeded; the report is
still `1/3`. -/
theorem bulk_trash_marks_failures_too :
    trashSelection es5 = ["m1", "m2", "m3"]
    ∧ f5 "m2" = false ∧ f5 "m3" = false
    ∧ ((bulkTrash f5 es5).1.filter (fun e => e.trashed)).map (fun e => e.id)
        = ["m1", "m2", "m3"]
    ∧ (bulkTrash f5 es5).2 = (1, 3) :=
  ⟨by decide, rfl, rfl, by decide, rfl⟩

/-- C1 (amended): after the bulk action, exactly the selected emails
(suggested trash, not yet trashed — and any email sharing a selected id) are
marked trashed locally, whether or not their trash call succeeded; ids are
unchanged; the reported outcome is succeeded over attempted; and the
persisted snapshot carries exactly those updated flags for the clicked
group. -/
theorem bulkTrash_marks_attempted (f : String → Bool) (es : List LabeledEmail) :
    (bulkTrash f es).1.map (fun e => e.id) = es.map (fun e => e.id)
    ∧ (bulkTrash f es).1.map (fun e => e.trashed)
        = es.map (fun e => e.trashed || (trashSelection es).contains e.id)
    ∧ (bulkTrash f es).2 = (((trashSelection es).filter f).length, (trashSelection es).length)
    ∧ ∀ (st : ScanSnapshot) (target : String) (g : SenderGroup),
        st.grouped.find? (fun h => h.sender == target) = some g →
        (trashSuggested f st target).1.grouped
          = st.grouped.map (fun h =>
              if h.sender == target then { h with emails := (bulkTrash f g.emails).1 } else h)
        ∧ (trashSuggested f st target).2 = (bulkTrash f g.emails).2 := by
  refine ⟨?_, ?_, rfl, ?_⟩
  · simp only [bulkTrash, List.map_map]
    apply List.map_congr_left
    intro a _
    by_cases hc : a.id ∈ trashSelection es <;> simp [hc]
  · simp only [bulkTrash, List.map_map]
    apply List.map_congr_left
    intro a _
    by_cases hc : a.id ∈ trashSelection es <;> simp [hc]
  · intro st target g hfind
    simp only [trashSuggested, hfind]
    constructor <;> first | rfl | trivial

/-- C1 (witness): the scenario instance of the amended claim — the
snapshot's group is found, its persisted emails are the bulk-updated list,
and the report is `1/3`. -/
theorem bulkTrash_marks_attempted_witness :
    st5.grouped.find? (fun h => h.sender == "news@shop.example") = some gr5
    ∧ (trashSuggested f5 st5 "news@shop.example").1.grouped
        = st5.grouped.map (fun h =>
            if h.sender == "news@shop.example" then { h with emails := (bulkTrash f5 gr5.emails).1 }
            else h)
    ∧ (bulkTrash f5 es5).2
        = (((trashSelection es5).filter f5).length, (trashSelection es5).length)
    ∧ (((trashSelection es5).filter f5).length, (trashSelection es5).length) = (1, 3) :=
  ⟨rfl,
   ((bulkTrash_marks_attempted f5 es5).2.2.2 st5 "news@shop.example" gr5 rfl).1,
   (bulkTrash_marks_attempted f5 es5).2.2.1,
   by decide⟩

/-! C10: keep, trash and review counts always account for every email. -/

/-- Disjoint filters never cover more than the list. -/
theorem length_filter_disjoint {α : Type} (l : List α) (p q : α → Bool)
    (hdisj : ∀ a, ¬(p a = true ∧ q a = true)) :
    (l.filter p).length + (l.filter q).length ≤ l.length := by
  induction l with
  | nil => simp
  | cons a l ih =>
    cases hp : p a with
    | true =>
      have hq : q a = false := by
        cases hqq : q a
        · rfl
        · exact absurd ⟨hp, hqq⟩ (hdisj a)
      simp [List.filter_cons, hp, hq]
      omega
    | false =>
      cases hq : q a <;> simp [List.filter_cons, hp, hq] <;> omega

/-- An email cannot count both keep and trash. -/
theorem keep_trash_disjoint (a : LabeledEmail) :
    ¬((actionKey a == "keep") = true ∧ (actionKey a == "trash") = true) := by
  rintro ⟨h1, h2⟩
  have e1 : actionKey a = "keep" := by simpa using h1
  have e2 : actionKey a = "trash" := by simpa using h2
  rw [e1] at e2
  exact absurd e2 (by decide)

/-- Per-group partition of the counts. -/
theorem counts_partition (es : List LabeledEmail) :
    keepCount es + trashCount es + reviewCount es = es.length := by
  have h : keepCount es + trashCount es ≤ es.length :=
    length_filter_disjoint es (fun e => actionKey e == "keep")
      (fun e => actionKey e == "trash") keep_trash_disjoint
  unfold reviewCount
  omega

/-- Summed over any list of groups, the three totals account for every
email. -/
theorem totals_partition (gs : List SenderGroup) :
    (gs.map (fun g => keepCount g.emails)).sum + (gs.map (fun g => trashCount g.emails)).sum
      + (gs.map (fun g => reviewCount g.emails)).sum
      = (gs.map (fun g => g.emails.length)).sum := by
  induction gs with
  | nil => rfl
  | cons g gs ih =>
    have h := counts_partition g.emails
    simp only [List.map_cons, List.sum_cons]
    omega

/-- C10: in every render of any state, each group's keep, trash and review
counts sum to that group's email count, and the summary totals sum to the
total email count over all rendered groups. -/
theorem render_counts_consistent (grouped : List SenderGroup) :
    (∀ g ∈ sortedGroups grouped,
        keepCount g.emails + trashCount g.emails + reviewCount g.emails = g.emails.length)
    ∧ totalKeep grouped + totalTrash grouped + totalReview grouped
        = ((sortedGroups grouped).map (fun g => g.emails.length)).sum :=
  ⟨fun g _ => counts_partition g.emails, totals_partition (sortedGroups grouped)⟩

/-- C10 (witness): the scenario group (one keep, three trash, one review,
one decision-carrying action each) satisfies the per-group count identity. -/
theorem render_counts_consistent_witness :
    gr5 ∈ sortedGroups [gr5]
    ∧ keepCount gr5.emails + trashCount gr5.emails + reviewCount gr5.emails
        = gr5.emails.length :=
  ⟨by simp [sortedGroups],
   (render_counts_consistent [gr5]).1 gr5 (by simp [sortedGroups])⟩

/-- C6 (witness): with a failing Gmail listing call, the previous snapshot
stays in the store and only the listing effect was issued. -/
theorem scan_failure_preserves_snapshot_witness :
    scan envFail {} "2025-10-06T10:00:00Z" (some snapPrev)
      = (Except.error "Gmail API error 401: unauthorized", some snapPrev, [Eff.list])
    ∧ some snapPrev = some snapPrev ∧ Eff.persist ∉ [Eff.list] :=
  ⟨rfl,
   (scan_failure_preserves_snapshot envFail {} "2025-10-06T10:00:00Z" (some snapPrev)
      "Gmail API error 401: unauthorized" (some snapPrev) [Eff.list] rfl).1 ▸ ⟨rfl,
   (scan_failure_preserves_snapshot envFail {} "2025-10-06T10:00:00Z" (some snapPrev)
      "Gmail API error 401: unauthorized" (some snapPrev) [Eff.list] rfl).2.1⟩⟩

/-! C7: grouping by normalized sender is a partition, rendered in descending
count order. -/

/-- Inserting one email adds exactly that email to the grouped collection. -/
theorem allEmails_insert (gs : List SenderGroup) (e : LabeledEmail) :
    List.Perm (allEmails (insertEmail gs e)) (e :: allEmails gs) := by
  induction gs with
  | nil => simp [insertEmail, allEmails]
  | cons g rest ih =>
    by_cases hk : g.sender = groupKey e
    · simp only [insertEmail, if_pos hk, allEmails, List.map_cons, List.flatten_cons]
      rw [List.append_assoc]
      exact List.perm_middle
    · simp only [insertEmail, if_neg hk, allEmails, List.map_cons, List.flatten_cons]
      exact (List.Perm.append_left g.emails ih).trans List.perm_middle

/-- Folding the grouping loop over a list appends exactly that list, up to
permutation. -/
theorem allEmails_foldl (l : List LabeledEmail) :
    ∀ gs : List SenderGroup,
      List.Perm (allEmails (List.foldl insertEmail gs l)) (allEmails gs ++ l) := by
  induction l with
  | nil => intro gs; simp
  | cons e l ih =>
    intro gs
    simp only [List.foldl_cons]
    have h1 := ih (insertEmail gs e)
    have h2 : List.Perm (allEmails (insertEmail gs e) ++ l) ((e :: allEmails gs) ++ l) :=
      List.Perm.append_right l (allEmails_insert gs e)
    exact h1.trans (h2.trans List.perm_middle.symm)

/-- The grouped collection holds exactly the labeled emails. -/
theorem groupBySender_perm (l : List LabeledEmail) :
    List.Perm (allEmails (groupBySender l)) l := by
  have h := allEmails_foldl l []
  simpa [allEmails, groupBySender] using h

/-- Inserting an email either reuses its key's group or opens one new group
at the end. -/
theorem insertEmail_senders (gs : List SenderGroup) (e : LabeledEmail) :
    senderKeys (insertEmail gs e)
      = if groupKey e ∈ senderKeys gs then senderKeys gs
        else senderKeys gs ++ [groupKey e] := by
  induction gs with
  | nil => simp [insertEmail, senderKeys]
  | cons g rest ih =>
    by_cases hk : g.sender = groupKey e
    · simp [insertEmail, hk, senderKeys]
    · simp only [insertEmail, if_neg hk, senderKeys, List.map_cons] at ih ⊢
      by_cases hm : groupKey e ∈ rest.map (fun g => g.sender)
      · simp [ih, hm, hk, Ne.symm hk]
      · simp [ih, hm, hk, Ne.symm hk]

/-- Inserting preserves distinctness of the group keys. -/
theorem insertEmail_nodup (gs : List SenderGroup) (e : LabeledEmail)
    (h : (senderKeys gs).Nodup) : (senderKeys (insertEmail gs e)).Nodup := by
  rw [insertEmail_senders]
  by_cases hm : groupKey e ∈ senderKeys gs
  · simpa [hm] using h
  · simp [hm, List.nodup_append, h]

/-- The grouping loop keeps group keys distinct. -/
theorem groupBySender_nodup (l : List LabeledEmail) :
    (senderKeys (groupBySender l)).Nodup := by
  suffices h : ∀ gs : List SenderGroup, (senderKeys gs).Nodup →
      (senderKeys (List.foldl insertEmail gs l)).Nodup by
    exact h [] (by simp [senderKeys])
  induction l with
  | nil => intro gs hgs; simpa using hgs
  | cons e l ih =>
    intro gs hgs
    simp only [List.foldl_cons]
    exact ih (insertEmail gs e) (insertEmail_nodup gs e hgs)

/-- Inserting keeps every email in the group carrying its own key. -/
theorem insertEmail_consistent (gs : List SenderGroup) (e : LabeledEmail)
    (h : ∀ g ∈ gs, ∀ x ∈ g.emails, groupKey x = g.sender) :
    ∀ g ∈ insertEmail gs e, ∀ x ∈ g.emails, groupKey x = g.sender := by
  induction gs with
  | nil =>
    intro g hg x hx
    simp only [insertEmail, List.mem_singleton] at hg
    subst hg
    simp only [List.mem_singleton] at hx
    subst hx
    rfl
  | cons g0 rest ih =>
    intro g hg x hx
    by_cases hk : g0.sender = groupKey e
    · simp only [insertEmail, if_pos hk, List.mem_cons] at hg
      rcases hg with hg | hg
      · subst hg
        simp only [List.mem_append, List.mem_singleton] at hx
        rcases hx with hx | hx
        · exact h g0 (List.mem_cons_self g0 rest) x hx
        · subst hx
          exact hk.symm
      · exact h g (List.mem_cons_of_mem g0 hg) x hx
    · simp only [insertEmail, if_neg hk, List.mem_cons] at hg
      rcases hg with hg | hg
      · subst hg
        exact h g (List.mem_cons_self g rest) x hx
      · exact ih (fun g' hg' => h g' (List.mem_cons_of_mem g0 hg')) g hg x hx

/-- Every email of the grouped collection sits in the group of its own key. -/
theorem groupBySender_consistent (l : List LabeledEmail) :
    ∀ g ∈ groupBySender l, ∀ x ∈ g.emails, groupKey x = g.sender := by
  suffices h : ∀ gs : List SenderGroup,
      (∀ g ∈ gs, ∀ x ∈ g.emails, groupKey x = g.sender) →
      ∀ g ∈ List.foldl insertEmail gs l, ∀ x ∈ g.emails, groupKey x = g.sender by
    exact h [] (by simp)
  induction l with
  | nil => intro gs hgs; simpa using hgs
  | cons e l ih =>
    intro gs hgs
    simp only [List.foldl_cons]
    exact ih (insertEmail gs e) (insertEmail_consistent gs e hgs)

/-- The render order is a permutation of the grouped collection. -/
theorem sortedGroups_perm (gs : List SenderGroup) :
    List.Perm (sortedGroups gs) gs :=
  List.mergeSort_perm gs byCountDesc

/-- The render order is descending by email count. -/
theorem sortedGroups_sorted (gs : List SenderGroup) :
    List.Pairwise (fun a b => b.emails.length ≤ a.emails.length) (sortedGroups gs) := by
  have h : List.Pairwise (fun a b => byCountDesc a b = true) (sortedGroups gs) := by
    apply List.sorted_mergeSort
    · intro a b c h1 h2
      simp only [byCountDesc, decide_eq_true_eq] at *
      omega
    · intro a b
      simp only [byCountDesc, Bool.or_eq_true, decide_eq_true_eq]
      omega
  exact h.imp (fun hab => by simpa [byCountDesc] using hab)

/-- C7: grouping by normalized sender partitions the labeled emails — the
groups' emails together are exactly the labeled set, every email lies in the
group of its own key, group keys are distinct (so each email appears in
exactly one group) — and the render order is descending by email count. -/
theorem grouping_is_partition (l : List LabeledEmail) :
    List.Perm (allEmails (groupBySender l)) l
    ∧ (∀ g ∈ groupBySender l, ∀ x ∈ g.emails, groupKey x = g.sender)
    ∧ (senderKeys (groupBySender l)).Nodup
    ∧ List.Perm (sortedGroups (groupBySender l)) (groupBySender l)
    ∧ List.Pairwise (fun a b => b.emails.length ≤ a.emails.length)
        (sortedGroups (groupBySender l)) :=
  ⟨groupBySender_perm l, groupBySender_consistent l, groupBySender_nodup l,
   sortedGroups_perm (groupBySender l), sortedGroups_sorted (groupBySender l)⟩

/-- C7 (witness): the scenario emails all share one sender; the grouping
produces that single group and the first email sits in the group of its
key. -/
theorem grouping_is_partition_witness :
    gr5 ∈ groupBySender es5
    ∧ mkLab "m1" "trash" ∈ gr5.emails
    ∧ groupKey (mkLab "m1" "trash") = gr5.sender :=
  ⟨List.mem_cons_self gr5 [],
   List.mem_cons_self (mkLab "m1" "trash") _,
   (grouping_is_partition es5).2.1 gr5 (List.mem_cons_self gr5 [])
     (mkLab "m1" "trash") (List.mem_cons_self (mkLab "m1" "trash") _)⟩

/-! C5: character-level facts about the ASCII model of `toLowerCase` and
whitespace, feeding the `normalizeSender` analysis. -/

/-- A valid code point round-trips through `Char.ofNat`. -/
theorem toNat_ofNat_valid {n : Nat} (h : n.isValidChar) : (Char.ofNat n).toNat = n := by
  simp [Char.ofNat, h, Char.ofNatAux, Char.toNat, UInt32.toNat, BitVec.toNat_ofNatLt]

/-- Characters with equal code points are equal. -/
theorem char_toNat_inj {a b : Char} (h : a.toNat = b.toNat) : a = b :=
  Char.ext (UInt32.toNat.inj h)

/-- Character equality is code-point equality. -/
theorem char_eq_iff_toNat {a b : Char} : a = b ↔ a.toNat = b.toNat :=
  ⟨fun h => h ▸ rfl, char_toNat_inj⟩

/-- Code points up to 122 are valid characters. -/
theorem valid_of_le (n : Nat) (h : n ≤ 122) : n.isValidChar := Or.inl (by omega)

/-- Lowercasing hits `<` only from `<` itself. -/
theorem toLower_eq_lt {c : Char} : Char.toLower c = '<' ↔ c = '<' := by
  constructor
  · intro h
    unfold Char.toLower at h
    simp only [] at h
    split at h
    · next hc =>
      have h1 : (Char.ofNat (c.toNat + 32)).toNat = c.toNat + 32 :=
        toNat_ofNat_valid (valid_of_le _ (by omega))
      have h2 := char_eq_iff_toNat.mp h
      rw [h1] at h2
      have h3 : ('<' : Char).toNat = 60 := by decide
      omega
    · exact h
  · intro h; subst h; decide

/-- Lowercasing hits `>` only from `>` itself. -/
theorem toLower_eq_gt {c : Char} : Char.toLower c = '>' ↔ c = '>' := by
  constructor
  · intro h
    unfold Char.toLower at h
    simp only [] at h
    split at h
    · next hc =>
      have h1 : (Char.ofNat (c.toNat + 32)).toNat = c.toNat + 32 :=
        toNat_ofNat_valid (valid_of_le _ (by omega))
      have h2 := char_eq_iff_toNat.mp h
      rw [h1] at h2
      have h3 : ('>' : Char).toNat = 62 := by decide
      omega
    · exact h
  · intro h; subst h; decide

/-- Lowercasing is idempotent on characters. -/
theorem toLower_idem (c : Char) : Char.toLower (Char.toLower c) = Char.toLower c := by
  unfold Char.toLower
  simp only []
  split
  · next hc =>
    have h1 : (Char.ofNat (c.toNat + 32)).toNat = c.toNat + 32 :=
      toNat_ofNat_valid (valid_of_le _ (by omega))
    rw [h1, if_neg (by omega)]
  · rfl

/-- Whitespace characters, by code point. -/
theorem ws_iff (c : Char) :
    c.isWhitespace = true ↔ (c.toNat = 32 ∨ c.toNat = 9 ∨ c.toNat = 13 ∨ c.toNat = 10) := by
  have h32 : (' ' : Char).toNat = 32 := by decide
  have h9 : ('\t' : Char).toNat = 9 := by decide
  have h13 : ('\r' : Char).toNat = 13 := by decide
  have h10 : ('\n' : Char).toNat = 10 := by decide
  simp [Char.isWhitespace, char_eq_iff_toNat, h32, h9, h13, h10]
  omega

/-- Lowercasing does not create or destroy whitespace. -/
theorem isWhitespace_toLower (c : Char) :
    (Char.toLower c).isWhitespace = c.isWhitespace := by
  unfold Char.toLower
  simp only []
  split
  · next hc =>
    have h1 : (Char.ofNat (c.toNat + 32)).toNat = c.toNat + 32 :=
      toNat_ofNat_valid (valid_of_le _ (by omega))
    have hl : (Char.ofNat (c.toNat + 32)).isWhitespace = false := by
      rw [Bool.eq_false_iff]
      intro hw
      have h2 := (ws_iff _).mp hw
      omega
    have hr : c.isWhitespace = false := by
      rw [Bool.eq_false_iff]
      intro hw
      have h2 := (ws_iff _).mp hw
      omega
    rw [hl, hr]
  · rfl

/-- The non-`>` test commutes with lowercasing. -/
theorem bne_gt_toLower (x : Char) : (Char.toLower x != '>') = (x != '>') := by
  by_cases hx : x = '>'
  · subst hx; rfl
  · have h1 : Char.toLower x ≠ '>' := fun hh => hx (toLower_eq_gt.mp hh)
    have h2 : (Char.toLower x != '>') = true := by simpa using h1
    have h3 : (x != '>') = true := by simpa using hx
    rw [h2, h3]

/-! Structure of the regex scan `scanBracket`. -/

/-- Scanning a list whose members all pass, up to a failing head, takes
exactly the passing part. -/
theorem takeWhile_all_append {p : Char → Bool} :
    ∀ (a : List Char) (b0 : Char) (post : List Char),
      (∀ x ∈ a, p x = true) → p b0 = false →
      ((a ++ b0 :: post).takeWhile p) = a := by
  intro a
  induction a with
  | nil =>
    intro b0 post _ hb
    simp [List.takeWhile_cons, hb]
  | cons x a ih =>
    intro b0 post ha hb
    have hx : p x = true := ha x (List.mem_cons_self x a)
    simp only [List.cons_append, List.takeWhile_cons, hx, if_true]
    rw [ih b0 post (fun y hy => ha y (List.mem_cons_of_mem x hy)) hb]

/-- On a `>`-free list the scan of non-`>` characters takes everything. -/
theorem takeWhile_eq_self_of_no_gt {l : List Char} (h : '>' ∉ l) :
    l.takeWhile (fun x => x != '>') = l := by
  induction l with
  | nil => rfl
  | cons c rest ih =>
    have hc : ('>' : Char) ≠ c ∧ '>' ∉ rest := by
      simpa [List.mem_cons, not_or] using h
    have hcb : (c != '>') = true := by simp [bne]; exact fun hcc => hc.1 hcc.symm
    simp only [List.takeWhile_cons, hcb, if_true]
    rw [ih hc.2]

/-- The captured group of the regex holds no `>`. -/
theorem gt_not_mem_takeWhile (l : List Char) :
    '>' ∉ l.takeWhile (fun x => x != '>') := by
  intro hmem
  have h := List.mem_takeWhile_imp hmem
  simp at h

/-- A successful bracket scan decomposes the input around the match. -/
theorem scanBracket_some :
    ∀ {l m : List Char}, scanBracket l = some m →
      ∃ pre post, l = pre ++ '<' :: (m ++ '>' :: post) ∧ m ≠ [] ∧ '>' ∉ m := by
  intro l
  induction l with
  | nil => intro m h; simp [scanBracket] at h
  | cons c rest ih =>
    intro m h
    simp only [scanBracket] at h
    by_cases hc : c = '<'
    · rw [if_pos hc] at h
      by_cases hcond : (rest.takeWhile (fun x => x != '>')).length ≠ 0 ∧
          (rest.takeWhile (fun x => x != '>')).length < rest.length
      · rw [if_pos hcond] at h
        injection h with h
        subst h
        subst hc
        rcases hdw : rest.dropWhile (fun x => x != '>') with _ | ⟨d, post⟩
        · exfalso
          have hfull := List.takeWhile_append_dropWhile (fun x => x != '>') rest
          rw [hdw, List.append_nil] at hfull
          rw [hfull] at hcond
          omega
        · have hdgt : d = '>' := by
            have hh := List.head?_dropWhile_not (fun x => x != '>') rest
            rw [hdw] at hh
            simpa using hh
          refine ⟨[], post, ?_, ?_, gt_not_mem_takeWhile rest⟩
          · have hfull := List.takeWhile_append_dropWhile (fun x => x != '>') rest
            rw [hdw, hdgt] at hfull
            rw [List.nil_append, hfull]
          · intro hnil
            rw [hnil] at hcond
            simp at hcond
      · rw [if_neg hcond] at h
        obtain ⟨pre, post, hl, hne, hnm⟩ := ih h
        exact ⟨c :: pre, post, by rw [List.cons_append, hl], hne, hnm⟩
    · rw [if_neg hc] at h
      obtain ⟨pre, post, hl, hne, hnm⟩ := ih h
      exact ⟨c :: pre, post, by rw [List.cons_append, hl], hne, hnm⟩

/-- A bracketed decomposition guarantees the scan succeeds. -/
theorem scanBracket_ne_none :
    ∀ (pre mid post : List Char), mid ≠ [] → '>' ∉ mid →
      scanBracket (pre ++ '<' :: (mid ++ '>' :: post)) ≠ none := by
  intro pre
  induction pre with
  | nil =>
    intro mid post hne hnm
    simp only [List.nil_append, scanBracket, if_pos]
    have htw : ((mid ++ '>' :: post).takeWhile (fun x => x != '>')) = mid :=
      takeWhile_all_append mid '>' post
        (fun x hx => by
          have : x ≠ '>' := fun hh => hnm (hh ▸ hx)
          simpa using this)
        (by simp)
    rw [htw, if_pos]
    · simp
    · constructor
      · simpa using hne
      · simp only [List.length_append, List.length_cons]
        omega
  | cons a pre ih =>
    intro mid post hne hnm
    simp only [List.cons_append, scanBracket]
    by_cases ha : a = '<'
    · rw [if_pos ha]
      split
      · simp
      · exact ih mid post hne hnm
    · rw [if_neg ha]
      exact ih mid post hne hnm

/-- A `>`-free list has no bracket match. -/
theorem scanBracket_none_of_no_gt : ∀ {l : List Char}, '>' ∉ l → scanBracket l = none := by
  intro l
  induction l with
  | nil => intro _; rfl
  | cons c rest ih =>
    intro h
    have hc : ('>' : Char) ≠ c ∧ '>' ∉ rest := by
      simpa [List.mem_cons, not_or] using h
    simp only [scanBracket]
    by_cases h1 : c = '<'
    · rw [if_pos h1, takeWhile_eq_self_of_no_gt hc.2, if_neg (by omega)]
      exact ih hc.2
    · rw [if_neg h1]
      exact ih hc.2

/-- The bracket scan commutes with lowercasing: `<` and `>` are fixed points
and never produced from other characters. -/
theorem scanBracket_map_toLower :
    ∀ l : List Char,
      scanBracket (l.map Char.toLower) = (scanBracket l).map (List.map Char.toLower) := by
  intro l
  induction l with
  | nil => rfl
  | cons c rest ih =>
    simp only [List.map_cons, scanBracket]
    by_cases hc : c = '<'
    · have hcl : Char.toLower c = '<' := toLower_eq_lt.mpr hc
      rw [if_pos hcl, if_pos hc]
      have htw : ((rest.map Char.toLower).takeWhile (fun x => x != '>'))
          = (rest.takeWhile (fun x => x != '>')).map Char.toLower := by
        have hpf : ((fun x => x != '>') ∘ Char.toLower) = (fun x => x != '>') :=
          funext bne_gt_toLower
        rw [List.takeWhile_map, hpf]
      rw [htw]
      simp only [List.length_map]
      by_cases hcond : (rest.takeWhile (fun x => x != '>')).length ≠ 0 ∧
          (rest.takeWhile (fun x => x != '>')).length < rest.length
      · rw [if_pos hcond, if_pos hcond]
        rfl
      · rw [if_neg hcond, if_neg hcond]
        exact ih
    · have hcl : Char.toLower c ≠ '<' := fun hh => hc (toLower_eq_lt.mp hh)
      rw [if_neg hcl, if_neg hc]
      exact ih

/-- A match inside a segment is a match of the whole. -/
theorem scanBracket_ne_none_of_seg {l : List Char} (a b : List Char)
    (h : scanBracket l ≠ none) : scanBracket (a ++ l ++ b) ≠ none := by
  rcases ho : scanBracket l with _ | m
  · exact absurd ho h
  · obtain ⟨pre, post, hl, hne, hnm⟩ := scanBracket_some ho
    subst hl
    have hres := scanBracket_ne_none (a ++ pre) m (post ++ b) hne hnm
    have heq : a ++ (pre ++ '<' :: (m ++ '>' :: post)) ++ b
        = (a ++ pre) ++ '<' :: (m ++ '>' :: (post ++ b)) := by
      simp [List.append_assoc]
    rw [heq]
    exact hres

/-- No match in the whole means no match in any inner segment. -/
theorem scanBracket_none_seg {l : List Char} (a b : List Char)
    (h : scanBracket (a ++ l ++ b) = none) : scanBracket l = none := by
  by_contra hne
  exact scanBracket_ne_none_of_seg a b hne h

/-! Trimming and lowercasing: decompositions, idempotence, commutation. -/

/-- Left trim only removes a leading segment. -/
theorem trimLeft_decomp (l : List Char) :
    l = l.takeWhile Char.isWhitespace ++ trimLeft l :=
  (List.takeWhile_append_dropWhile Char.isWhitespace l).symm

/-- Right trim only removes a trailing segment. -/
theorem trimRight_decomp (l : List Char) : ∃ b, l = trimRight l ++ b := by
  refine ⟨(l.reverse.takeWhile Char.isWhitespace).reverse, ?_⟩
  have h : trimRight l ++ (l.reverse.takeWhile Char.isWhitespace).reverse
      = (l.reverse.takeWhile Char.isWhitespace ++ l.reverse.dropWhile Char.isWhitespace).reverse := by
    unfold trimRight
    rw [List.reverse_append]
  rw [h, List.takeWhile_append_dropWhile, List.reverse_reverse]

/-- Trimming keeps an inner segment of the original list. -/
theorem trimList_decomp (l : List Char) : ∃ a b, l = a ++ trimList l ++ b := by
  obtain ⟨b, hb⟩ := trimRight_decomp (trimLeft l)
  refine ⟨l.takeWhile Char.isWhitespace, b, ?_⟩
  conv_lhs => rw [trimLeft_decomp l]
  rw [hb]
  unfold trimList
  rw [List.append_assoc]

/-- Members of the trimmed list come from the original. -/
theorem mem_of_mem_trimList {x : Char} {l : List Char} (h : x ∈ trimList l) : x ∈ l := by
  obtain ⟨a, b, hab⟩ := trimList_decomp l
  rw [hab]
  simp only [List.mem_append]
  exact Or.inl (Or.inr h)

/-- Dropping whitespace twice is dropping it once. -/
theorem dropWhile_ws_idem (l : List Char) :
    (l.dropWhile Char.isWhitespace).dropWhile Char.isWhitespace
      = l.dropWhile Char.isWhitespace := by
  induction l with
  | nil => rfl
  | cons c rest ih =>
    by_cases hc : Char.isWhitespace c
    · rw [List.dropWhile_cons_of_pos hc]
      exact ih
    · rw [List.dropWhile_cons_of_neg hc, List.dropWhile_cons_of_neg hc]

/-- Left trim is idempotent. -/
theorem trimLeft_idem (l : List Char) : trimLeft (trimLeft l) = trimLeft l :=
  dropWhile_ws_idem l

/-- Right trim is idempotent. -/
theorem trimRight_idem (l : List Char) : trimRight (trimRight l) = trimRight l := by
  unfold trimRight
  rw [List.reverse_reverse, dropWhile_ws_idem]

/-- A list already left-trimmed stays left-trimmed after a right trim. -/
theorem trimLeft_trimRight_of {u : List Char} (h : trimLeft u = u) :
    trimLeft (trimRight u) = trimRight u := by
  obtain ⟨b, hb⟩ := trimRight_decomp u
  rcases htr : trimRight u with _ | ⟨c, t⟩
  · rfl
  · rw [htr] at hb
    by_cases hc : Char.isWhitespace c
    · exfalso
      rw [hb] at h
      unfold trimLeft at h
      rw [List.cons_append, List.dropWhile_cons_of_pos hc] at h
      have hlen := congrArg List.length h
      have hle : ((t ++ b).dropWhile Char.isWhitespace).length ≤ (t ++ b).length :=
        (List.dropWhile_suffix Char.isWhitespace).sublist.length_le
      simp only [List.length_cons] at hlen
      omega
    · unfold trimLeft
      rw [List.dropWhile_cons_of_neg hc]

/-- Full trim is idempotent. -/
theorem trimList_idem (l : List Char) : trimList (trimList l) = trimList l := by
  unfold trimList
  rw [trimLeft_trimRight_of (trimLeft_idem l), trimRight_idem]

/-- Left trim commutes with lowercasing. -/
theorem trimLeft_map_toLower (l : List Char) :
    trimLeft (l.map Char.toLower) = (trimLeft l).map Char.toLower := by
  unfold trimLeft
  rw [List.dropWhile_map]
  have hpf : (Char.isWhitespace ∘ Char.toLower) = Char.isWhitespace :=
    funext isWhitespace_toLower
  rw [hpf]

/-- Right trim commutes with lowercasing. -/
theorem trimRight_map_toLower (l : List Char) :
    trimRight (l.map Char.toLower) = (trimRight l).map Char.toLower := by
  unfold trimRight
  have hpf : (Char.isWhitespace ∘ Char.toLower) = Char.isWhitespace :=
    funext isWhitespace_toLower
  rw [← List.map_reverse, List.dropWhile_map, hpf, List.map_reverse]

/-- Full trim commutes with lowercasing. -/
theorem trimList_map_toLower (l : List Char) :
    trimList (l.map Char.toLower) = (trimList l).map Char.toLower := by
  unfold trimList
  rw [trimLeft_map_toLower, trimRight_map_toLower]

/-- Lowercasing a list is idempotent. -/
theorem map_toLower_idem (l : List Char) :
    (l.map Char.toLower).map Char.toLower = l.map Char.toLower := by
  rw [List.map_map]
  exact List.map_congr_left (fun a _ => toLower_idem a)

/-- Lowercasing never introduces `>`. -/
theorem gt_not_mem_map_toLower {l : List Char} (h : '>' ∉ l) :
    '>' ∉ l.map Char.toLower := by
  intro hm
  obtain ⟨c, hc, hcl⟩ := List.mem_map.mp hm
  have hceq : c = '>' := toLower_eq_gt.mp hcl
  rw [hceq] at hc
  exact h hc

/-! The behaviour of `normalizeSender`. -/

/-- Normalization of a header whose bracket content is only whitespace yields
the empty result, on which a second normalization produces `"(unknown)"`:
the function is not idempotent there. -/
theorem normalizeSenderList_idem :
    ∀ l : List Char, normalizeSenderList l ≠ [] →
      normalizeSenderList (normalizeSenderList l) = normalizeSenderList l := by
  intro l hne
  rcases hm : scanBracket l with _ | content
  · by_cases hteq : jsToLowerList (trimList l) = []
    · have hres : normalizeSenderList l = "(unknown)".data := by
        unfold normalizeSenderList
        rw [hm]
        simp [hteq]
      rw [hres]
      rfl
    · have hres : normalizeSenderList l = jsToLowerList (trimList l) := by
        unfold normalizeSenderList
        rw [hm]
        simp [hteq]
      rw [hres]
      have h1 : scanBracket (trimList l) = none := by
        obtain ⟨a, b, hab⟩ := trimList_decomp l
        exact scanBracket_none_seg a b (by rw [← hab]; exact hm)
      have hsb : scanBracket (jsToLowerList (trimList l)) = none := by
        unfold jsToLowerList
        rw [scanBracket_map_toLower, h1]
        rfl
      unfold normalizeSenderList
      rw [hsb]
      have htt : trimList (jsToLowerList (trimList l)) = jsToLowerList (trimList l) := by
        unfold jsToLowerList
        rw [trimList_map_toLower, trimList_idem]
      have htl : jsToLowerList (trimList (jsToLowerList (trimList l)))
          = jsToLowerList (trimList l) := by
        rw [htt]
        exact map_toLower_idem (trimList l)
      simp only [htl]
      rw [if_neg hteq]
  · have hres : normalizeSenderList l = jsToLowerList (trimList content) := by
      unfold normalizeSenderList
      rw [hm]
    rw [hres] at hne ⊢
    have hgt : '>' ∉ jsToLowerList (trimList content) := by
      unfold jsToLowerList
      apply gt_not_mem_map_toLower
      intro hmem
      obtain ⟨pre, post, hl, hne2, hnm⟩ := scanBracket_some hm
      exact hnm (mem_of_mem_trimList hmem)
    have hsb : scanBracket (jsToLowerList (trimList content)) = none :=
      scanBracket_none_of_no_gt hgt
    unfold normalizeSenderList
    rw [hsb]
    have htt : trimList (jsToLowerList (trimList content))
        = jsToLowerList (trimList content) := by
      unfold jsToLowerList
      rw [trimList_map_toLower, trimList_idem]
    have htl : jsToLowerList (trimList (jsToLowerList (trimList content)))
        = jsToLowerList (trimList content) := by
      rw [htt]
      exact map_toLower_idem (trimList content)
    simp only [htl]
    rw [if_neg hne]

/-- A string built from a character list is empty exactly when the list is. -/
theorem stringMk_eq_empty {l : List Char} : (⟨l⟩ : String) = "" ↔ l = [] := by
  constructor
  · intro h
    have h2 := congrArg String.data h
    simpa using h2
  · intro h
    subst h
    rfl

/-- C5 (counterexample): `normalizeSender` is not idempotent — a header whose
bracketed content is all whitespace normalizes to `""` (the bracket branch
skips the `"(unknown)"` fallback), and renormalizing `""` yields
`"(unknown)"`. -/
theorem normalizeSender_not_idempotent :
    normalizeSender "< >" = ""
    ∧ normalizeSender (normalizeSender "< >") = "(unknown)"
    ∧ ("(unknown)" : String) ≠ "" :=
  ⟨rfl, rfl, by decide⟩

/-- C5 (amended): `normalizeSender` is total (a Lean function), an empty
`from` header yields the sentinel `"(unknown)"`, and normalization is
idempotent on every input whose result is nonempty — the sole exception
being headers whose bracketed content trims to nothing, which normalize to
`""` and renormalize to `"(unknown)"`. -/
theorem normalizeSender_spec :
    normalizeSender "" = "(unknown)"
    ∧ ∀ s : String, normalizeSender s ≠ "" →
        normalizeSender (normalizeSender s) = normalizeSender s := by
  refine ⟨rfl, ?_⟩
  intro s hne
  have hne' : normalizeSenderList s.data ≠ [] := by
    intro h0
    exact hne (stringMk_eq_empty.mpr h0)
  exact congrArg String.mk (normalizeSenderList_idem s.data hne')

/-- C5 (witness): a typical display-name header normalizes to the bracketed
address, on which normalization is stable. -/
theorem normalizeSender_spec_witness :
    normalizeSender "John Doe <A@B.Com> x" ≠ ""
    ∧ normalizeSender (normalizeSender "John Doe <A@B.Com> x")
        = normalizeSender "John Doe <A@B.Com> x" :=
  ⟨by decide, normalizeSender_spec.2 "John Doe <A@B.Com> x" (by decide)⟩

end GmailUnspamer
